import Mathlib

/-!
Shallow embedding of the inertia-rust protocol/resolution engine.

Source files embedded:
- src/props.rs           : property variants and the visibility/resolution algorithm
- src/req_type.rs        : request classification data types
- src/providers/actix_provider/impls.rs : request classification, version
  negotiation and the render orchestration
- src/providers/actix_provider/middleware.rs : middleware version gate
- src/utils.rs           : SSR page request
- src/node_process.rs    : renderer process start

JSON values are modelled by a small scalar inductive: none of the embedded
algorithms inspects the structure of a value, so scalars suffice and keep
every definition decidable.  Thunks are modelled as Lean functions from
Unit; an instrumented variant of the resolver additionally returns the list
of keys whose thunks were forced, in invocation order, mirroring each
resolver-call site of the source.
-/

/-- Scalar JSON values (serde_json::Value restricted to scalars; the
resolution engine treats values as opaque). -/
inductive Value where
  | null : Value
  | bool (b : Bool) : Value
  | num (n : Int) : Value
  | str (s : String) : Value
deriving DecidableEq, Repr

/-- src/props.rs: `InertiaProp`.  `Data`/`Always` hold a precomputed value,
`Lazy`/`Demand` hold a thunk. -/
inductive InertiaProp where
  | Data (v : Value) : InertiaProp
  | Lazy (f : Unit → Value) : InertiaProp
  | Always (v : Value) : InertiaProp
  | Demand (f : Unit → Value) : InertiaProp

/-- src/req_type.rs: `PartialComponent`. -/
structure PartialComponent where
  component : String
  only : List String
  except : List String
deriving DecidableEq, Repr

/-- src/req_type.rs: `InertiaRequestType`. -/
inductive InertiaRequestType where
  | Standard : InertiaRequestType
  | Partial (p : PartialComponent) : InertiaRequestType
deriving DecidableEq, Repr

/-- src/props.rs: `InertiaProps` is a map from keys to props (HashMap in
the source; modelled as an association list whose keys are unique, the
uniqueness being a hypothesis of the theorems that need it). -/
abbrev InertiaProps := List (String × InertiaProp)

/-- Resolved props (serde_json::Map in the source), modelled as an
association list with insert-replaces-value semantics. -/
abbrev ResolvedProps := List (String × Value)

/-- serde_json::Map::insert - replaces the value when the key is present,
otherwise appends the new entry. -/
def mapInsert : ResolvedProps → String → Value → ResolvedProps
  | [], k, v => [(k, v)]
  | (k0, v0) :: rest, k, v =>
    if k0 = k then (k0, v) :: rest else (k0, v0) :: mapInsert rest k v

/-- serde_json::Map::get - first entry with the key. -/
def mapGet : ResolvedProps → String → Option Value
  | [], _ => none
  | (k0, v0) :: rest, k => if k0 = k then some v0 else mapGet rest k

/-- serde_json::Map::extend - insert every entry of the second map into the
first, overwriting on key collision. -/
def mapExtend (m : ResolvedProps) (other : ResolvedProps) : ResolvedProps :=
  other.foldl (fun acc e => mapInsert acc e.1 e.2) m

/-- src/props.rs lines 83-86: `InertiaProp::should_be_pushed`. -/
def should_be_pushed (key : String) (partials : PartialComponent) : Bool :=
  partials.only.contains key ||
    (partials.only.isEmpty && !(partials.except.contains key))

/-- src/props.rs lines 73-81: `InertiaProp::resolve_prop_unconditionally`. -/
def resolve_prop_unconditionally : InertiaProp → Value
  | .Always v => v
  | .Data v => v
  | .Demand resolver => resolver ()
  | .Lazy resolver => resolver ()

/-- Loop of src/props.rs lines 33-43 (standard branch of `resolve_props`):
`Demand` entries are skipped, every other entry is inserted after
unconditional resolution. -/
def resolve_props_standard : InertiaProps → ResolvedProps → ResolvedProps
  | [], props => props
  | (key, value) :: rest, props =>
    match value with
    | .Demand _ => resolve_props_standard rest props
    | value =>
      resolve_props_standard rest
        (mapInsert props key (resolve_prop_unconditionally value))

/-- Loop of src/props.rs lines 47-68 (partial-reload branch of
`resolve_props`). -/
def resolve_props_partials
    (partials : PartialComponent) : InertiaProps → ResolvedProps → ResolvedProps
  | [], props => props
  | (key, value) :: rest, props =>
    match value with
    | .Always v =>
      resolve_props_partials partials rest (mapInsert props key v)
    | .Data v =>
      resolve_props_partials partials rest
        (if should_be_pushed key partials then mapInsert props key v else props)
    | .Lazy resolver =>
      resolve_props_partials partials rest
        (if should_be_pushed key partials then mapInsert props key (resolver ())
         else props)
    | .Demand resolver =>
      resolve_props_partials partials rest
        (if should_be_pushed key partials then mapInsert props key (resolver ())
         else props)

/-- src/props.rs lines 27-71: `InertiaProp::resolve_props`. -/
def resolve_props (raw_props : InertiaProps) (req_type : InertiaRequestType) :
    ResolvedProps :=
  match req_type with
  | .Standard => resolve_props_standard raw_props []
  | .Partial partials => resolve_props_partials partials raw_props []

/-- Instrumented standard branch: identical to `resolve_props_standard`,
additionally appending the key to the trace at each resolver-call site
(the `resolver()` inside `resolve_prop_unconditionally` for `Lazy`; the
`Demand` arm of `resolve_prop_unconditionally` is unreachable here because
the loop skips `Demand` first). -/
def resolve_props_standard_tr :
    InertiaProps → ResolvedProps → List String → ResolvedProps × List String
  | [], props, tr => (props, tr)
  | (key, value) :: rest, props, tr =>
    match value with
    | .Demand _ => resolve_props_standard_tr rest props tr
    | .Lazy resolver =>
      resolve_props_standard_tr rest (mapInsert props key (resolver ()))
        (tr ++ [key])
    | value =>
      resolve_props_standard_tr rest
        (mapInsert props key (resolve_prop_unconditionally value)) tr

/-- Instrumented partial-reload branch: identical to
`resolve_props_partials`, appending the key to the trace each time a
`Lazy`/`Demand` resolver is invoked (exactly at the two `resolver()` call
sites of src/props.rs lines 59 and 64). -/
def resolve_props_partials_tr (partials : PartialComponent) :
    InertiaProps → ResolvedProps → List String → ResolvedProps × List String
  | [], props, tr => (props, tr)
  | (key, value) :: rest, props, tr =>
    match value with
    | .Always v =>
      resolve_props_partials_tr partials rest (mapInsert props key v) tr
    | .Data v =>
      resolve_props_partials_tr partials rest
        (if should_be_pushed key partials then mapInsert props key v else props)
        tr
    | .Lazy resolver =>
      if should_be_pushed key partials then
        resolve_props_partials_tr partials rest
          (mapInsert props key (resolver ())) (tr ++ [key])
      else resolve_props_partials_tr partials rest props tr
    | .Demand resolver =>
      if should_be_pushed key partials then
        resolve_props_partials_tr partials rest
          (mapInsert props key (resolver ())) (tr ++ [key])
      else resolve_props_partials_tr partials rest props tr

/-- Instrumented `resolve_props`: same result map, plus the trace of thunk
invocations. -/
def resolve_props_tr (raw_props : InertiaProps)
    (req_type : InertiaRequestType) : ResolvedProps × List String :=
  match req_type with
  | .Standard => resolve_props_standard_tr raw_props [] []
  | .Partial partials => resolve_props_partials_tr partials raw_props [] []

/-- Whether a property variant carries a thunk (`Lazy` or `Demand`). -/
def InertiaProp.isThunk : InertiaProp → Bool
  | .Lazy _ => true
  | .Demand _ => true
  | _ => false

/-!
Request model.  A request is the normalized view of the headers the engine
reads (src/providers/actix_provider/impls.rs) plus the request uri.  Raw
header values are byte lists; actix's `HeaderValue::to_str` succeeds only
when every byte is printable ASCII.
-/

/-- src/error.rs: `InertiaError`. -/
inductive InertiaError where
  | SerializationError (msg : String) : InertiaError
  | HeaderError (msg : String) : InertiaError
  | SsrError (msg : String) : InertiaError
  | RenderError (msg : String) : InertiaError
  | NodeJsError (cause description : String) : InertiaError
deriving DecidableEq, Repr

/-- Normalized request: the optional raw values of the inertia headers and
the request uri. -/
structure Request where
  xInertia : Option (List Nat)
  xInertiaVersion : Option (List Nat)
  xInertiaPartialComponent : Option (List Nat)
  xInertiaPartialData : Option (List Nat)
  xInertiaPartialExcept : Option (List Nat)
  uri : String

/-- A byte is printable ASCII (space through tilde). -/
def printableAscii (b : Nat) : Bool := 32 ≤ b && b ≤ 126

/-- actix `HeaderValue::to_str`: succeeds iff every byte of the value is
printable ASCII, yielding the corresponding string. -/
def headerToStr (bytes : List Nat) : Option String :=
  if bytes.all printableAscii then
    some (String.mk (bytes.map Char.ofNat))
  else none

/-- src/providers/actix_provider/impls.rs lines 170-175:
`is_inertia_request` - the x-inertia header is present and non-empty. -/
def is_inertia_request (req : Request) : Bool :=
  match req.xInertia with
  | none => false
  | some v => !v.isEmpty

/-- src/providers/actix_provider/impls.rs lines 209-217:
`check_inertia_version` - absent header passes; a present header passes
iff it decodes and equals the current version. -/
def check_inertia_version (req : Request) (current_version : String) : Bool :=
  match req.xInertiaVersion with
  | none => true
  | some bytes =>
    match headerToStr bytes with
    | none => false
    | some version => version == current_version

/-- Rust `str::split(",")` at the character level: the substrings between
commas, keeping empty segments (an empty string yields [""]). -/
def splitCommasAux : List Char → List Char → List String
  | [], acc => [String.mk acc.reverse]
  | c :: rest, acc =>
    if c = ',' then String.mk acc.reverse :: splitCommasAux rest []
    else splitCommasAux rest (c :: acc)

/-- Rust `str::split(",")` mapped to owned strings, as in
`extract_partials_headers_content`. -/
def splitCommas (s : String) : List String :=
  splitCommasAux s.data []

/-- src/providers/actix_provider/impls.rs lines 220-238:
`extract_partials_headers_content` - absent header yields the empty list; a
present header must decode (else `HeaderError`) and is split on commas
verbatim. -/
def extract_partials_headers_content (value : Option (List Nat))
    (header_name : String) : Except InertiaError (List String) :=
  match value with
  | none => .ok []
  | some bytes =>
    match headerToStr bytes with
    | some s => .ok (splitCommas s)
    | none =>
      .error (.HeaderError
        ("Header " ++ header_name ++
          "'s value must contain only printable ASCII characters."))

/-- src/providers/actix_provider/impls.rs lines 177-204:
`get_request_type`. -/
def get_request_type (req : Request) : Except InertiaError InertiaRequestType :=
  match req.xInertiaPartialComponent with
  | none => .ok .Standard
  | some bytes =>
    match headerToStr bytes with
    | none =>
      .error (.SerializationError
        "Failed to serialize header x-inertia-partial-component")
    | some component =>
      match extract_partials_headers_content req.xInertiaPartialData
          "x-inertia-partial-data" with
      | .error e => .error e
      | .ok only =>
        match extract_partials_headers_content req.xInertiaPartialExcept
            "x-inertia-partial-except" with
        | .error e => .error e
        | .ok ex => .ok (.Partial ⟨component, only, ex⟩)

/-!
Response model and version negotiation.
-/

/-- src/page.rs: `InertiaPage`. -/
structure InertiaPage where
  component : String
  props : ResolvedProps
  url : String
  version : Option String
deriving DecidableEq, Repr

/-- src/page.rs: `InertiaSSRPage`. -/
structure InertiaSSRPage where
  head : List String
  body : String
deriving DecidableEq, Repr

/-- Response body: empty (location/redirect responses), a serialized page
(data responses), or html (full renders). -/
inductive ResponseBody where
  | empty : ResponseBody
  | page (p : InertiaPage) : ResponseBody
  | html (s : String) : ResponseBody
deriving DecidableEq, Repr

/-- Minimal HTTP response: status code plus the headers the engine sets. -/
structure Response where
  status : Nat
  headers : List (String × String)
  body : ResponseBody
deriving DecidableEq, Repr

/-- src/providers/actix_provider/impls.rs lines 122-132: `location` - a 302
Found redirect with a Location header for non-hydrated requests, a 409
Conflict with an x-inertia-location header for hydrated ones. -/
def location (req : Request) (url : String) : Response :=
  if !is_inertia_request req then
    { status := 302, headers := [("location", url)], body := .empty }
  else
    { status := 409, headers := [("x-inertia-location", url)], body := .empty }

/-- src/providers/actix_provider/impls.rs lines 248-266:
`check_and_handle_version_mismatch` - intercepts (`some` response) only for
hydrated requests whose version check fails.  (The session-reflash attempt
on that path only logs on failure and does not affect the response.) -/
def check_and_handle_version_mismatch (current_version : String)
    (req : Request) : Option Response :=
  if is_inertia_request req && !(check_inertia_version req current_version) then
    some (location req req.uri)
  else none

/-- src/providers/actix_provider/middleware.rs lines 118-135: the version
gate of `InertiaMiddlewareService::call` - when the version check fails the
middleware short-circuits with `location` for any request (assuming the
Inertia singleton is configured as app data). -/
def middleware_version_gate (current_version : String) (req : Request) :
    Option Response :=
  if check_inertia_version req current_version then none
  else some (location req req.uri)

/-!
SSR orchestration and the render flow.  External collaborators (the HTTP
round-trip to the renderer and the template resolver) are modelled as
oracle inputs: the outcome of the renderer call and the template-resolver
function are parameters of the render model.
-/

/-- Possible outcomes of the HTTP round-trip to the SSR renderer performed
by src/utils.rs `request_page_render`: the send fails (connection error or
the 5-second timeout), the response body fails to deserialize, or a page
comes back. -/
inductive SsrOutcome where
  | sendFailure (msg : String) : SsrOutcome
  | badBody (msg : String) : SsrOutcome
  | success (page : InertiaSSRPage) : SsrOutcome

/-- Whether the SSR round-trip failed. -/
def SsrOutcome.isFailure : SsrOutcome → Bool
  | .sendFailure _ => true
  | .badBody _ => true
  | .success _ => false

/-- src/utils.rs lines 52-85: `request_page_render` - both failure shapes
are mapped onto `SsrError`; a deserialized body is returned as-is. -/
def request_page_render (outcome : SsrOutcome) :
    Except InertiaError InertiaSSRPage :=
  match outcome with
  | .sendFailure msg =>
    .error (.SsrError ("Failed to render the page at the SSR Server: " ++ msg))
  | .badBody msg =>
    .error (.SsrError ("Failed to desserialize InertiaSSRPage object: " ++ msg))
  | .success page => .ok page

/-- src/inertia.rs: `ViewData` (custom props omitted: the engine only
forwards them). -/
structure ViewData where
  page : InertiaPage
  ssr_page : Option InertiaSSRPage

/-- Effect log of one `render_with_props` call: keys whose thunks were
invoked (in order), the page that was built (if any), and whether an SSR
failure warning was logged. -/
structure RenderLog where
  thunks : List String
  builtPage : Option InertiaPage
  ssrWarned : Bool
deriving DecidableEq, Repr

/-- src/providers/actix_provider/impls.rs lines 64-71: resolve the route
props, then resolve the shared props (when the middleware stored some) and
extend the former with the latter; build the page from them.  Returns the
page together with the thunk-invocation trace. -/
def build_page (version : String) (url component : String)
    (props : InertiaProps) (shared : Option InertiaProps)
    (req_type : InertiaRequestType) : InertiaPage × List String :=
  let route := resolve_props_tr props req_type
  match shared with
  | none => (⟨component, route.1, url, some version⟩, route.2)
  | some shared_props =>
    let sh := resolve_props_tr shared_props req_type
    (⟨component, mapExtend route.1 sh.1, url, some version⟩, route.2 ++ sh.2)

/-- src/providers/actix_provider/impls.rs lines 23-34: `respond_to` for an
`InertiaPage` - a 200 response with the x-inertia header and the serialized
page as body. -/
def page_response (page : InertiaPage) : Response :=
  { status := 200, headers := [("x-inertia", "true")], body := .page page }

/-- src/providers/actix_provider/impls.rs lines 51-119: `render_with_props`.
The template resolver and the SSR round-trip outcome are oracle inputs;
`ssr_enabled` models `self.ssr_url.is_some()`.  Returns the response (or the
propagated error) together with the effect log. -/
def render_with_props (version : String)
    (template_resolver : ViewData → Except InertiaError String)
    (ssr_enabled : Bool) (ssr_outcome : SsrOutcome)
    (req : Request) (component : String) (props : InertiaProps)
    (shared : Option InertiaProps) :
    Except InertiaError (Response × RenderLog) :=
  let url := req.uri
  match get_request_type req with
  | .error e => .error e
  | .ok req_type =>
    match check_and_handle_version_mismatch version req with
    | some forced_refresh => .ok (forced_refresh, ⟨[], none, false⟩)
    | none =>
      let built := build_page version url component props shared req_type
      let page := built.1
      if is_inertia_request req then
        .ok (page_response page, ⟨built.2, some page, false⟩)
      else
        let ssr :=
          if ssr_enabled then
            match request_page_render ssr_outcome with
            | .error _ => (none, true)
            | .ok ssr_page => (some ssr_page, false)
          else ((none : Option InertiaSSRPage), false)
        match template_resolver ⟨page, ssr.1⟩ with
        | .error e => .error e
        | .ok html =>
          .ok ({ status := 200,
                 headers := [("x-inertia", "true"), ("content-type", "text/html")],
                 body := .html html },
               ⟨built.2, some page, ssr.2⟩)

/-!
Renderer process start (src/node_process.rs).  File-system existence, path
representability and the outcome of spawning are oracle inputs; the model
additionally reports whether a spawn was attempted.
-/

/-- src/node_process.rs: `NodeJsError`. -/
structure NodeJsError where
  cause : String
  description : String
deriving DecidableEq, Repr

/-- src/node_process.rs: `NodeJsProc` - the child process handle and the
server address the process is bound to. -/
structure NodeJsProc where
  child : Nat
  server : String
deriving DecidableEq, Repr

/-- Oracle for `NodeJsProc::start`: whether the script path exists, what
`Path::to_str` yields, and what spawning the process yields. -/
structure StartWorld where
  pathExists : Bool
  pathToStr : Option String
  spawnResult : Except String Nat

/-- src/node_process.rs lines 92-131: `NodeJsProc::start`.  The second
component reports whether `Command::spawn` was reached. -/
def nodeJsStart (server_path : String) (server_url : String)
    (w : StartWorld) : Except NodeJsError NodeJsProc × Bool :=
  if !w.pathExists then
    (.error ⟨"Invalid path",
      "Server javascript file not found in " ++ server_path ++ "."⟩, false)
  else
    match w.pathToStr with
    | none =>
      (.error ⟨"Invalid path",
        "The given path contains invalid UTF-8 characters."⟩, false)
    | some _ =>
      match w.spawnResult with
      | .error err =>
        (.error ⟨"Process error",
          "Something went wrong on invoking a node server: " ++ err⟩, true)
      | .ok child => (.ok ⟨child, server_url⟩, true)

/-!
Helper lemmas about the map operations and the resolver.
-/

/-- All keys of an association list are pairwise distinct (HashMap /
serde_json::Map invariant). -/
def keysDistinct {α : Type} (l : List (String × α)) : Prop :=
  l.Pairwise (fun a b => a.1 ≠ b.1)

/-- Lookup after insert. -/
theorem mapGet_mapInsert (m : ResolvedProps) (k q : String) (v : Value) :
    mapGet (mapInsert m k v) q = if k = q then some v else mapGet m q := by
  induction m with
  | nil =>
    by_cases h : k = q <;> simp [mapInsert, mapGet, h]
  | cons e rest ih =>
    obtain ⟨k0, v0⟩ := e
    by_cases h0 : k0 = k
    · subst h0
      by_cases h : k0 = q <;> simp [mapInsert, mapGet, h]
    · by_cases h : k0 = q
      · subst h
        simp [mapInsert, mapGet, h0, Ne.symm h0]
      · simp [mapInsert, mapGet, h0, h, ih]

/-- Lookup misses when no entry has the key. -/
theorem mapGet_eq_none (m : ResolvedProps) (q : String)
    (h : ∀ e ∈ m, e.1 ≠ q) : mapGet m q = none := by
  induction m with
  | nil => rfl
  | cons e rest ih =>
    obtain ⟨k0, v0⟩ := e
    have hk : k0 ≠ q := h (k0, v0) (List.mem_cons_self _ _)
    simp [mapGet, hk]
    exact ih fun e he => h e (List.mem_cons_of_mem _ he)

/-- Every entry of an insert result is an old entry or has the new key. -/
theorem mem_mapInsert (m : ResolvedProps) (k : String) (v : Value) :
    ∀ e ∈ mapInsert m k v, e ∈ m ∨ e.1 = k := by
  induction m with
  | nil => intro e he; simp [mapInsert] at he; simp [he]
  | cons e0 rest ih =>
    obtain ⟨k0, v0⟩ := e0
    intro e he
    by_cases h0 : k0 = k
    · subst h0
      simp [mapInsert] at he
      rcases he with he | he
      · simp [he]
      · exact Or.inl (List.mem_cons_of_mem _ he)
    · simp [mapInsert, h0] at he
      rcases he with he | he
      · simp [he]
      · rcases ih e he with h | h
        · exact Or.inl (List.mem_cons_of_mem _ h)
        · exact Or.inr h

/-- Insert preserves key distinctness. -/
theorem keysDistinct_mapInsert (m : ResolvedProps) (k : String) (v : Value)
    (h : keysDistinct m) : keysDistinct (mapInsert m k v) := by
  induction m with
  | nil => simp [mapInsert, keysDistinct]
  | cons e0 rest ih =>
    obtain ⟨k0, v0⟩ := e0
    rw [keysDistinct, List.pairwise_cons] at h
    by_cases h0 : k0 = k
    · subst h0
      rw [keysDistinct, mapInsert, if_pos rfl, List.pairwise_cons]
      exact ⟨h.1, h.2⟩
    · rw [keysDistinct, mapInsert, if_neg h0, List.pairwise_cons]
      refine ⟨fun e he => ?_, ih h.2⟩
      rcases mem_mapInsert rest k v e he with h' | h'
      · exact h.1 e h'
      · rw [h']; exact h0

/-- Extending past entries whose keys all miss leaves the lookup unchanged. -/
theorem mapGet_mapExtend_of_none (m other : ResolvedProps) (k : String)
    (h : mapGet other k = none) :
    mapGet (mapExtend m other) k = mapGet m k := by
  induction other generalizing m with
  | nil => rfl
  | cons e0 rest ih =>
    obtain ⟨k0, v0⟩ := e0
    have hstep : mapExtend m ((k0, v0) :: rest) =
        mapExtend (mapInsert m k0 v0) rest := rfl
    by_cases h0 : k0 = k
    · simp [mapGet, h0] at h
    · simp [mapGet, h0] at h
      rw [hstep, ih _ h, mapGet_mapInsert, if_neg h0]

/-- Lookup distributes over extend when the second map has distinct keys:
the second map wins on collision. -/
theorem mapGet_mapExtend (m other : ResolvedProps) (k : String)
    (h : keysDistinct other) :
    mapGet (mapExtend m other) k =
      match mapGet other k with
      | some v => some v
      | none => mapGet m k := by
  induction other generalizing m with
  | nil => rfl
  | cons e0 rest ih =>
    obtain ⟨k0, v0⟩ := e0
    rw [keysDistinct, List.pairwise_cons] at h
    have hstep : mapExtend m ((k0, v0) :: rest) =
        mapExtend (mapInsert m k0 v0) rest := rfl
    by_cases h0 : k0 = k
    · subst h0
      have hrest : mapGet rest k0 = none := mapGet_eq_none rest k0 fun e he =>
        (h.1 e he).symm
      rw [hstep, mapGet_mapExtend_of_none _ _ _ hrest, mapGet_mapInsert,
        if_pos rfl]
      simp [mapGet]
    · rw [hstep, ih _ h.2]
      have hcons : mapGet ((k0, v0) :: rest) k = mapGet rest k := by
        simp [mapGet, h0]
      rw [hcons, mapGet_mapInsert, if_neg h0]

/-- Value contributed by an entry on a standard visit (`none` = dropped):
`Demand` is skipped, everything else resolves unconditionally. -/
def emitStandard (p : InertiaProp) : Option Value :=
  match p with
  | .Demand _ => none
  | p => some (resolve_prop_unconditionally p)

/-- Value contributed by an entry on a partial reload (`none` = dropped). -/
def emitPartials (partials : PartialComponent) (key : String)
    (p : InertiaProp) : Option Value :=
  match p with
  | .Always v => some v
  | .Data v => if should_be_pushed key partials then some v else none
  | .Lazy resolver =>
    if should_be_pushed key partials then some (resolver ()) else none
  | .Demand resolver =>
    if should_be_pushed key partials then some (resolver ()) else none

/-- Value contributed by an entry under a request kind. -/
def emit (req_type : InertiaRequestType) (key : String) (p : InertiaProp) :
    Option Value :=
  match req_type with
  | .Standard => emitStandard p
  | .Partial partials => emitPartials partials key p

/-- Standard resolution does not touch keys absent from the table. -/
theorem mapGet_resolve_standard_not_mem (entries : InertiaProps)
    (acc : ResolvedProps) (q : String) (h : ∀ e ∈ entries, e.1 ≠ q) :
    mapGet (resolve_props_standard entries acc) q = mapGet acc q := by
  induction entries generalizing acc with
  | nil => rfl
  | cons e0 rest ih =>
    obtain ⟨k0, p0⟩ := e0
    have hk : k0 ≠ q := h (k0, p0) (List.mem_cons_self _ _)
    have hrest : ∀ e ∈ rest, e.1 ≠ q := fun e he =>
      h e (List.mem_cons_of_mem _ he)
    cases p0 with
    | Demand f => simpa [resolve_props_standard] using ih acc hrest
    | Data v =>
      rw [show resolve_props_standard ((k0, .Data v) :: rest) acc =
        resolve_props_standard rest
          (mapInsert acc k0 (resolve_prop_unconditionally (.Data v))) from rfl,
        ih _ hrest, mapGet_mapInsert, if_neg hk]
    | Always v =>
      rw [show resolve_props_standard ((k0, .Always v) :: rest) acc =
        resolve_props_standard rest
          (mapInsert acc k0 (resolve_prop_unconditionally (.Always v))) from rfl,
        ih _ hrest, mapGet_mapInsert, if_neg hk]
    | Lazy f =>
      rw [show resolve_props_standard ((k0, .Lazy f) :: rest) acc =
        resolve_props_standard rest
          (mapInsert acc k0 (resolve_prop_unconditionally (.Lazy f))) from rfl,
        ih _ hrest, mapGet_mapInsert, if_neg hk]

/-- Partial resolution does not touch keys absent from the table. -/
theorem mapGet_resolve_partials_not_mem (partials : PartialComponent)
    (entries : InertiaProps) (acc : ResolvedProps) (q : String)
    (h : ∀ e ∈ entries, e.1 ≠ q) :
    mapGet (resolve_props_partials partials entries acc) q = mapGet acc q := by
  induction entries generalizing acc with
  | nil => rfl
  | cons e0 rest ih =>
    obtain ⟨k0, p0⟩ := e0
    have hk : k0 ≠ q := h (k0, p0) (List.mem_cons_self _ _)
    have hrest : ∀ e ∈ rest, e.1 ≠ q := fun e he =>
      h e (List.mem_cons_of_mem _ he)
    cases p0 with
    | Always v =>
      rw [show resolve_props_partials partials ((k0, .Always v) :: rest) acc =
        resolve_props_partials partials rest (mapInsert acc k0 v) from rfl,
        ih _ hrest, mapGet_mapInsert, if_neg hk]
    | Data v =>
      rw [show resolve_props_partials partials ((k0, .Data v) :: rest) acc =
        resolve_props_partials partials rest
          (if should_be_pushed k0 partials then mapInsert acc k0 v else acc)
        from rfl, ih _ hrest]
      by_cases hp : should_be_pushed k0 partials <;>
        simp [hp, mapGet_mapInsert, if_neg hk]
    | Lazy f =>
      rw [show resolve_props_partials partials ((k0, .Lazy f) :: rest) acc =
        resolve_props_partials partials rest
          (if should_be_pushed k0 partials then mapInsert acc k0 (f ()) else acc)
        from rfl, ih _ hrest]
      by_cases hp : should_be_pushed k0 partials <;>
        simp [hp, mapGet_mapInsert, if_neg hk]
    | Demand f =>
      rw [show resolve_props_partials partials ((k0, .Demand f) :: rest) acc =
        resolve_props_partials partials rest
          (if should_be_pushed k0 partials then mapInsert acc k0 (f ()) else acc)
        from rfl, ih _ hrest]
      by_cases hp : should_be_pushed k0 partials <;>
        simp [hp, mapGet_mapInsert, if_neg hk]

/-- Standard lookup characterization: with distinct keys, an entry's key
resolves to exactly what the entry emits. -/
theorem mapGet_resolve_standard_mem (entries : InertiaProps)
    (acc : ResolvedProps) (k : String) (p : InertiaProp)
    (hmem : (k, p) ∈ entries) (hd : keysDistinct entries) :
    mapGet (resolve_props_standard entries acc) k =
      match emitStandard p with
      | some v => some v
      | none => mapGet acc k := by
  induction entries generalizing acc with
  | nil => cases hmem
  | cons e0 rest ih =>
    obtain ⟨k0, p0⟩ := e0
    rw [keysDistinct, List.pairwise_cons] at hd
    rcases List.mem_cons.mp hmem with heq | hmem'
    · obtain ⟨hk, hp⟩ := Prod.mk.injEq .. ▸ heq
      subst hk; subst hp
      have hrest : ∀ e ∈ rest, e.1 ≠ k := fun e he => (hd.1 e he).symm
      cases p with
      | Demand f =>
        rw [show resolve_props_standard ((k, .Demand f) :: rest) acc =
          resolve_props_standard rest acc from rfl,
          mapGet_resolve_standard_not_mem rest acc k hrest]
        rfl
      | Data v =>
        rw [show resolve_props_standard ((k, .Data v) :: rest) acc =
          resolve_props_standard rest (mapInsert acc k v) from rfl,
          mapGet_resolve_standard_not_mem rest _ k hrest, mapGet_mapInsert,
          if_pos rfl]
        rfl
      | Always v =>
        rw [show resolve_props_standard ((k, .Always v) :: rest) acc =
          resolve_props_standard rest (mapInsert acc k v) from rfl,
          mapGet_resolve_standard_not_mem rest _ k hrest, mapGet_mapInsert,
          if_pos rfl]
        rfl
      | Lazy f =>
        rw [show resolve_props_standard ((k, .Lazy f) :: rest) acc =
          resolve_props_standard rest (mapInsert acc k (f ())) from rfl,
          mapGet_resolve_standard_not_mem rest _ k hrest, mapGet_mapInsert,
          if_pos rfl]
        rfl
    · have hk0 : k0 ≠ k := hd.1 (k, p) hmem'
      cases p0 with
      | Demand f => exact ih acc hmem' hd.2
      | Data v =>
        rw [show resolve_props_standard ((k0, .Data v) :: rest) acc =
          resolve_props_standard rest (mapInsert acc k0 v) from rfl,
          ih _ hmem' hd.2, mapGet_mapInsert, if_neg hk0]
      | Always v =>
        rw [show resolve_props_standard ((k0, .Always v) :: rest) acc =
          resolve_props_standard rest (mapInsert acc k0 v) from rfl,
          ih _ hmem' hd.2, mapGet_mapInsert, if_neg hk0]
      | Lazy f =>
        rw [show resolve_props_standard ((k0, .Lazy f) :: rest) acc =
          resolve_props_standard rest (mapInsert acc k0 (f ())) from rfl,
          ih _ hmem' hd.2, mapGet_mapInsert, if_neg hk0]

/-- Partial-reload lookup characterization: with distinct keys, an entry's
key resolves to exactly what the entry emits under the filter. -/
theorem mapGet_resolve_partials_mem (partials : PartialComponent)
    (entries : InertiaProps) (acc : ResolvedProps) (k : String)
    (p : InertiaProp) (hmem : (k, p) ∈ entries) (hd : keysDistinct entries) :
    mapGet (resolve_props_partials partials entries acc) k =
      match emitPartials partials k p with
      | some v => some v
      | none => mapGet acc k := by
  induction entries generalizing acc with
  | nil => cases hmem
  | cons e0 rest ih =>
    obtain ⟨k0, p0⟩ := e0
    rw [keysDistinct, List.pairwise_cons] at hd
    rcases List.mem_cons.mp hmem with heq | hmem'
    · obtain ⟨hk, hp⟩ := Prod.mk.injEq .. ▸ heq
      subst hk; subst hp
      have hrest : ∀ e ∈ rest, e.1 ≠ k := fun e he => (hd.1 e he).symm
      cases p with
      | Always v =>
        rw [show resolve_props_partials partials ((k, .Always v) :: rest) acc =
          resolve_props_partials partials rest (mapInsert acc k v) from rfl,
          mapGet_resolve_partials_not_mem partials rest _ k hrest,
          mapGet_mapInsert, if_pos rfl]
        rfl
      | Data v =>
        rw [show resolve_props_partials partials ((k, .Data v) :: rest) acc =
          resolve_props_partials partials rest
            (if should_be_pushed k partials then mapInsert acc k v else acc)
          from rfl, mapGet_resolve_partials_not_mem partials rest _ k hrest]
        by_cases hpush : should_be_pushed k partials <;>
          simp [emitPartials, hpush, mapGet_mapInsert]
      | Lazy f =>
        rw [show resolve_props_partials partials ((k, .Lazy f) :: rest) acc =
          resolve_props_partials partials rest
            (if should_be_pushed k partials then mapInsert acc k (f ()) else acc)
          from rfl, mapGet_resolve_partials_not_mem partials rest _ k hrest]
        by_cases hpush : should_be_pushed k partials <;>
          simp [emitPartials, hpush, mapGet_mapInsert]
      | Demand f =>
        rw [show resolve_props_partials partials ((k, .Demand f) :: rest) acc =
          resolve_props_partials partials rest
            (if should_be_pushed k partials then mapInsert acc k (f ()) else acc)
          from rfl, mapGet_resolve_partials_not_mem partials rest _ k hrest]
        by_cases hpush : should_be_pushed k partials <;>
          simp [emitPartials, hpush, mapGet_mapInsert]
    · have hk0 : k0 ≠ k := hd.1 (k, p) hmem'
      cases p0 with
      | Always v =>
        rw [show resolve_props_partials partials ((k0, .Always v) :: rest) acc =
          resolve_props_partials partials rest (mapInsert acc k0 v) from rfl,
          ih _ hmem' hd.2, mapGet_mapInsert, if_neg hk0]
      | Data v =>
        rw [show resolve_props_partials partials ((k0, .Data v) :: rest) acc =
          resolve_props_partials partials rest
            (if should_be_pushed k0 partials then mapInsert acc k0 v else acc)
          from rfl, ih _ hmem' hd.2]
        by_cases hpush : should_be_pushed k0 partials <;>
          simp [hpush, mapGet_mapInsert, if_neg hk0]
      | Lazy f =>
        rw [show resolve_props_partials partials ((k0, .Lazy f) :: rest) acc =
          resolve_props_partials partials rest
            (if should_be_pushed k0 partials then mapInsert acc k0 (f ()) else acc)
          from rfl, ih _ hmem' hd.2]
        by_cases hpush : should_be_pushed k0 partials <;>
          simp [hpush, mapGet_mapInsert, if_neg hk0]
      | Demand f =>
        rw [show resolve_props_partials partials ((k0, .Demand f) :: rest) acc =
          resolve_props_partials partials rest
            (if should_be_pushed k0 partials then mapInsert acc k0 (f ()) else acc)
          from rfl, ih _ hmem' hd.2]
        by_cases hpush : should_be_pushed k0 partials <;>
          simp [hpush, mapGet_mapInsert, if_neg hk0]

/-- Lookup characterization of `resolve_props`. -/
theorem mapGet_resolve_props (raw_props : InertiaProps)
    (req_type : InertiaRequestType) (k : String) (p : InertiaProp)
    (hmem : (k, p) ∈ raw_props) (hd : keysDistinct raw_props) :
    mapGet (resolve_props raw_props req_type) k = emit req_type k p := by
  cases req_type with
  | Standard =>
    rw [show resolve_props raw_props .Standard =
      resolve_props_standard raw_props [] from rfl,
      mapGet_resolve_standard_mem raw_props [] k p hmem hd]
    cases h : emitStandard p <;> simp [emit, h, mapGet]
  | Partial partials =>
    rw [show resolve_props raw_props (.Partial partials) =
      resolve_props_partials partials raw_props [] from rfl,
      mapGet_resolve_partials_mem partials raw_props [] k p hmem hd]
    cases h : emitPartials partials k p <;> simp [emit, h, mapGet]

/-- Whether resolving an entry invokes its thunk: `Lazy` on standard
visits; `Lazy`/`Demand` on partial reloads when selected by the filter. -/
def thunkFires (req_type : InertiaRequestType) (key : String) :
    InertiaProp → Bool
  | .Lazy _ =>
    match req_type with
    | .Standard => true
    | .Partial partials => should_be_pushed key partials
  | .Demand _ =>
    match req_type with
    | .Standard => false
    | .Partial partials => should_be_pushed key partials
  | _ => false

/-- The keys whose thunks fire, in table order. -/
def traceOf (req_type : InertiaRequestType) (entries : InertiaProps) :
    List String :=
  entries.filterMap fun e =>
    if thunkFires req_type e.1 e.2 then some e.1 else none

/-- The instrumented standard branch computes the same map as the plain one
and appends exactly the firing keys to the trace. -/
theorem resolve_props_standard_tr_eq (entries : InertiaProps)
    (acc : ResolvedProps) (tr : List String) :
    resolve_props_standard_tr entries acc tr =
      (resolve_props_standard entries acc, tr ++ traceOf .Standard entries) := by
  induction entries generalizing acc tr with
  | nil => simp [resolve_props_standard_tr, resolve_props_standard, traceOf]
  | cons e0 rest ih =>
    obtain ⟨k0, p0⟩ := e0
    cases p0 with
    | Demand f =>
      simpa [resolve_props_standard_tr, resolve_props_standard, traceOf,
        thunkFires] using ih acc tr
    | Lazy f =>
      simp [resolve_props_standard_tr, resolve_props_standard, traceOf,
        thunkFires, resolve_prop_unconditionally, ih]
    | Data v =>
      simp [resolve_props_standard_tr, resolve_props_standard, traceOf,
        thunkFires, resolve_prop_unconditionally, ih]
    | Always v =>
      simp [resolve_props_standard_tr, resolve_props_standard, traceOf,
        thunkFires, resolve_prop_unconditionally, ih]

/-- The instrumented partial branch computes the same map as the plain one
and appends exactly the firing keys to the trace. -/
theorem resolve_props_partials_tr_eq (partials : PartialComponent)
    (entries : InertiaProps) (acc : ResolvedProps) (tr : List String) :
    resolve_props_partials_tr partials entries acc tr =
      (resolve_props_partials partials entries acc,
        tr ++ traceOf (.Partial partials) entries) := by
  induction entries generalizing acc tr with
  | nil => simp [resolve_props_partials_tr, resolve_props_partials, traceOf]
  | cons e0 rest ih =>
    obtain ⟨k0, p0⟩ := e0
    cases p0 with
    | Always v =>
      simp [resolve_props_partials_tr, resolve_props_partials, traceOf,
        thunkFires, ih]
    | Data v =>
      simp [resolve_props_partials_tr, resolve_props_partials, traceOf,
        thunkFires, ih]
    | Lazy f =>
      by_cases hpush : should_be_pushed k0 partials <;>
        simp [resolve_props_partials_tr, resolve_props_partials, traceOf,
          thunkFires, hpush, ih]
    | Demand f =>
      by_cases hpush : should_be_pushed k0 partials <;>
        simp [resolve_props_partials_tr, resolve_props_partials, traceOf,
          thunkFires, hpush, ih]

/-- The instrumented resolver refines the plain one. -/
theorem resolve_props_tr_eq (raw_props : InertiaProps)
    (req_type : InertiaRequestType) :
    resolve_props_tr raw_props req_type =
      (resolve_props raw_props req_type, traceOf req_type raw_props) := by
  cases req_type with
  | Standard =>
    simpa [resolve_props_tr, resolve_props] using
      resolve_props_standard_tr_eq raw_props [] []
  | Partial partials =>
    simpa [resolve_props_tr, resolve_props] using
      resolve_props_partials_tr_eq partials raw_props [] []

/-- Every key in the trace is a key of the table. -/
theorem mem_traceOf (req_type : InertiaRequestType) (entries : InertiaProps)
    (q : String) (h : q ∈ traceOf req_type entries) :
    ∃ p, (q, p) ∈ entries := by
  rw [traceOf, List.mem_filterMap] at h
  obtain ⟨e, he, hfe⟩ := h
  by_cases hf : thunkFires req_type e.1 e.2
  · rw [if_pos hf] at hfe
    obtain ⟨k, p⟩ := e
    cases hfe
    exact ⟨p, he⟩
  · rw [if_neg hf] at hfe
    cases hfe

/-- A key absent from the table never appears in the trace. -/
theorem count_traceOf_eq_zero (req_type : InertiaRequestType)
    (entries : InertiaProps) (q : String) (h : ∀ e ∈ entries, e.1 ≠ q) :
    (traceOf req_type entries).count q = 0 := by
  rw [List.count_eq_zero]
  intro hq
  obtain ⟨p, hp⟩ := mem_traceOf req_type entries q hq
  exact h (q, p) hp rfl

/-- With distinct keys, a key fires at most once, and an entry's key fires
exactly when `thunkFires` says so. -/
theorem count_traceOf (req_type : InertiaRequestType) (entries : InertiaProps)
    (k : String) (p : InertiaProp) (hmem : (k, p) ∈ entries)
    (hd : keysDistinct entries) :
    (traceOf req_type entries).count k =
      if thunkFires req_type k p then 1 else 0 := by
  induction entries with
  | nil => cases hmem
  | cons e0 rest ih =>
    obtain ⟨k0, p0⟩ := e0
    rw [keysDistinct, List.pairwise_cons] at hd
    have hsplit : traceOf req_type ((k0, p0) :: rest) =
        (if thunkFires req_type k0 p0 then [k0] else []) ++
          traceOf req_type rest := by
      by_cases hf : thunkFires req_type k0 p0 <;> simp [traceOf, hf]
    rcases List.mem_cons.mp hmem with heq | hmem'
    · obtain ⟨hk, hp⟩ := Prod.mk.injEq .. ▸ heq
      subst hk; subst hp
      have hzero : (traceOf req_type rest).count k = 0 :=
        count_traceOf_eq_zero req_type rest k fun e he => (hd.1 e he).symm
      by_cases hf : thunkFires req_type k p <;>
        simp [hsplit, hf, List.count_append, hzero, List.count_cons]
    · have hk0 : k0 ≠ k := hd.1 (k, p) hmem'
      by_cases hf : thunkFires req_type k0 p0 <;>
        simp [hsplit, hf, List.count_append, List.count_cons, hk0,
          ih hmem' hd.2]

/-- Without duplicate keys the trace counts every key at most once. -/
theorem count_traceOf_le_one (req_type : InertiaRequestType)
    (entries : InertiaProps) (q : String) (hd : keysDistinct entries) :
    (traceOf req_type entries).count q ≤ 1 := by
  by_cases hq : ∃ p, (q, p) ∈ entries
  · obtain ⟨p, hp⟩ := hq
    rw [count_traceOf req_type entries q p hp hd]
    by_cases hf : thunkFires req_type q p <;> simp [hf]
  · have h : ∀ e ∈ entries, e.1 ≠ q := by
      intro e he hne
      exact hq ⟨e.2, by rw [← hne]; exact he⟩
    simp [count_traceOf_eq_zero req_type entries q h]

/-- Standard resolution preserves key distinctness of the accumulator. -/
theorem keysDistinct_resolve_standard (entries : InertiaProps)
    (acc : ResolvedProps) (h : keysDistinct acc) :
    keysDistinct (resolve_props_standard entries acc) := by
  induction entries generalizing acc with
  | nil => exact h
  | cons e0 rest ih =>
    obtain ⟨k0, p0⟩ := e0
    cases p0 with
    | Demand f => exact ih acc h
    | Data v => exact ih _ (keysDistinct_mapInsert acc k0 _ h)
    | Always v => exact ih _ (keysDistinct_mapInsert acc k0 _ h)
    | Lazy f => exact ih _ (keysDistinct_mapInsert acc k0 _ h)

/-- Partial resolution preserves key distinctness of the accumulator. -/
theorem keysDistinct_resolve_partials (partials : PartialComponent)
    (entries : InertiaProps) (acc : ResolvedProps) (h : keysDistinct acc) :
    keysDistinct (resolve_props_partials partials entries acc) := by
  induction entries generalizing acc with
  | nil => exact h
  | cons e0 rest ih =>
    obtain ⟨k0, p0⟩ := e0
    cases p0 with
    | Always v => exact ih _ (keysDistinct_mapInsert acc k0 _ h)
    | Data v =>
      by_cases hpush : should_be_pushed k0 partials
      · rw [show resolve_props_partials partials ((k0, .Data v) :: rest) acc =
          resolve_props_partials partials rest
            (if should_be_pushed k0 partials then mapInsert acc k0 v else acc)
          from rfl, if_pos hpush]
        exact ih _ (keysDistinct_mapInsert acc k0 _ h)
      · rw [show resolve_props_partials partials ((k0, .Data v) :: rest) acc =
          resolve_props_partials partials rest
            (if should_be_pushed k0 partials then mapInsert acc k0 v else acc)
          from rfl, if_neg hpush]
        exact ih _ h
    | Lazy f =>
      by_cases hpush : should_be_pushed k0 partials
      · rw [show resolve_props_partials partials ((k0, .Lazy f) :: rest) acc =
          resolve_props_partials partials rest
            (if should_be_pushed k0 partials then mapInsert acc k0 (f ()) else acc)
          from rfl, if_pos hpush]
        exact ih _ (keysDistinct_mapInsert acc k0 _ h)
      · rw [show resolve_props_partials partials ((k0, .Lazy f) :: rest) acc =
          resolve_props_partials partials rest
            (if should_be_pushed k0 partials then mapInsert acc k0 (f ()) else acc)
          from rfl, if_neg hpush]
        exact ih _ h
    | Demand f =>
      by_cases hpush : should_be_pushed k0 partials
      · rw [show resolve_props_partials partials ((k0, .Demand f) :: rest) acc =
          resolve_props_partials partials rest
            (if should_be_pushed k0 partials then mapInsert acc k0 (f ()) else acc)
          from rfl, if_pos hpush]
        exact ih _ (keysDistinct_mapInsert acc k0 _ h)
      · rw [show resolve_props_partials partials ((k0, .Demand f) :: rest) acc =
          resolve_props_partials partials rest
            (if should_be_pushed k0 partials then mapInsert acc k0 (f ()) else acc)
          from rfl, if_neg hpush]
        exact ih _ h

/-- Resolved props always have distinct keys. -/
theorem keysDistinct_resolve_props (raw_props : InertiaProps)
    (req_type : InertiaRequestType) :
    keysDistinct (resolve_props raw_props req_type) := by
  cases req_type with
  | Standard =>
    exact keysDistinct_resolve_standard raw_props [] List.Pairwise.nil
  | Partial partials =>
    exact keysDistinct_resolve_partials partials raw_props [] List.Pairwise.nil

/-- The source's filter condition coincides with the specified inclusion
condition: (only non-empty and key selected) or (only empty and key not
excepted). -/
theorem should_be_pushed_spec (key : String) (partials : PartialComponent) :
    should_be_pushed key partials =
      ((!partials.only.isEmpty && partials.only.contains key) ||
        (partials.only.isEmpty && !partials.except.contains key)) := by
  cases h : partials.only <;> simp [should_be_pushed, h]

/-!
Claim theorems.
-/

/-- Claim C1: for every property table with distinct keys and every
partial-reload filter, an `Always` entry is inserted with its stored value
regardless of the filter, and a `Data`/`Lazy`/`Demand` entry keyed k is
included iff (`only` is non-empty and k is in `only`) or (`only` is empty
and k is not in `except`); included `Data` entries contribute their stored
value and included `Lazy`/`Demand` entries contribute their thunk's
result. -/
theorem c1_partial_reload_visibility (raw_props : InertiaProps)
    (partials : PartialComponent) (k : String) (p : InertiaProp)
    (hmem : (k, p) ∈ raw_props) (hd : keysDistinct raw_props) :
    mapGet (resolve_props raw_props (.Partial partials)) k =
      match p with
      | .Always v => some v
      | .Data v =>
        if (!partials.only.isEmpty && partials.only.contains k) ||
            (partials.only.isEmpty && !partials.except.contains k) then some v
        else none
      | .Lazy resolver =>
        if (!partials.only.isEmpty && partials.only.contains k) ||
            (partials.only.isEmpty && !partials.except.contains k) then
          some (resolver ())
        else none
      | .Demand resolver =>
        if (!partials.only.isEmpty && partials.only.contains k) ||
            (partials.only.isEmpty && !partials.except.contains k) then
          some (resolver ())
        else none := by
  rw [mapGet_resolve_props raw_props (.Partial partials) k p hmem hd]
  cases p <;> simp [emit, emitPartials, should_be_pushed_spec]

/-- Witness for C1 at a concrete table and filter. -/
theorem c1_partial_reload_visibility_witness :
    mapGet (resolve_props
      [("a", .Data (.num 1)), ("b", .Lazy fun _ => .num 2),
        ("c", .Always (.num 3))]
      (.Partial ⟨"X", ["a"], []⟩)) "b" = none ∧
    mapGet (resolve_props
      [("a", .Data (.num 1)), ("b", .Lazy fun _ => .num 2),
        ("c", .Always (.num 3))]
      (.Partial ⟨"X", ["a"], []⟩)) "a" = some (.num 1) ∧
    mapGet (resolve_props
      [("a", .Data (.num 1)), ("b", .Lazy fun _ => .num 2),
        ("c", .Always (.num 3))]
      (.Partial ⟨"X", ["a"], []⟩)) "c" = some (.num 3) := by
  have hd : keysDistinct
      ([("a", .Data (.num 1)), ("b", .Lazy fun _ => .num 2),
        ("c", .Always (.num 3))] : InertiaProps) := by
    rw [keysDistinct]
    refine List.Pairwise.cons (fun e he => ?_) ?_
    · rcases List.mem_cons.mp he with h | h
      · rw [h]; decide
      · rcases List.mem_cons.mp h with h' | h'
        · rw [h']; decide
        · cases h'
    · refine List.Pairwise.cons (fun e he => ?_) ?_
      · rcases List.mem_cons.mp he with h | h
        · rw [h]; decide
        · cases h
      · exact List.pairwise_singleton _ _
  refine ⟨?_, ?_, ?_⟩
  · have h := c1_partial_reload_visibility _ ⟨"X", ["a"], []⟩ "b"
      (.Lazy fun _ => .num 2)
      (List.mem_cons_of_mem _ (List.mem_cons_self _ _)) hd
    simpa using h
  · have h := c1_partial_reload_visibility _ ⟨"X", ["a"], []⟩ "a"
      (.Data (.num 1)) (List.mem_cons_self _ _) hd
    simpa using h
  · have h := c1_partial_reload_visibility _ ⟨"X", ["a"], []⟩ "c"
      (.Always (.num 3))
      (List.mem_cons_of_mem _ (List.mem_cons_of_mem _ (List.mem_cons_self _ _)))
      hd
    simpa using h

/-- Claim C3: for every property table with distinct keys resolved under a
Standard request: `Demand` entries never appear, `Always`/`Data` entries
appear with their stored value, and `Lazy` entries appear with their
thunk's result, each under its original key. -/
theorem c3_standard_visibility (raw_props : InertiaProps) (k : String)
    (p : InertiaProp) (hmem : (k, p) ∈ raw_props)
    (hd : keysDistinct raw_props) :
    mapGet (resolve_props raw_props .Standard) k =
      match p with
      | .Demand _ => none
      | .Always v => some v
      | .Data v => some v
      | .Lazy resolver => some (resolver ()) := by
  rw [mapGet_resolve_props raw_props .Standard k p hmem hd]
  cases p <;> simp [emit, emitStandard, resolve_prop_unconditionally]

/-- Witness for C3 at the spec's scenario table (an on-demand entry plus a
data entry, plus a lazy one). -/
theorem c3_standard_visibility_witness :
    mapGet (resolve_props
      [("radioStatus", .Demand fun _ => .str "air"),
        ("categories", .Data (.str "foo")),
        ("lazyOne", .Lazy fun _ => .num 7)] .Standard) "radioStatus"
      = none ∧
    mapGet (resolve_props
      [("radioStatus", .Demand fun _ => .str "air"),
        ("categories", .Data (.str "foo")),
        ("lazyOne", .Lazy fun _ => .num 7)] .Standard) "categories"
      = some (.str "foo") ∧
    mapGet (resolve_props
      [("radioStatus", .Demand fun _ => .str "air"),
        ("categories", .Data (.str "foo")),
        ("lazyOne", .Lazy fun _ => .num 7)] .Standard) "lazyOne"
      = some (.num 7) := by
  have hd : keysDistinct
      ([("radioStatus", .Demand fun _ => .str "air"),
        ("categories", .Data (.str "foo")),
        ("lazyOne", .Lazy fun _ => .num 7)] : InertiaProps) := by
    rw [keysDistinct]
    refine List.Pairwise.cons (fun e he => ?_) ?_
    · rcases List.mem_cons.mp he with h | h
      · rw [h]; decide
      · rcases List.mem_cons.mp h with h' | h'
        · rw [h']; decide
        · cases h'
    · refine List.Pairwise.cons (fun e he => ?_) ?_
      · rcases List.mem_cons.mp he with h | h
        · rw [h]; decide
        · cases h
      · exact List.pairwise_singleton _ _
  refine ⟨?_, ?_, ?_⟩
  · have h := c3_standard_visibility _ "radioStatus"
      (.Demand fun _ => .str "air") (List.mem_cons_self _ _) hd
    simpa using h
  · have h := c3_standard_visibility _ "categories" (.Data (.str "foo"))
      (List.mem_cons_of_mem _ (List.mem_cons_self _ _)) hd
    simpa using h
  · have h := c3_standard_visibility _ ("lazyOne")
      (.Lazy fun _ => .num 7)
      (List.mem_cons_of_mem _ (List.mem_cons_of_mem _ (List.mem_cons_self _ _)))
      hd
    simpa using h

/-- The emitted value is present exactly when the thunk fires, for thunk
entries. -/
theorem emit_isSome_eq_thunkFires (req_type : InertiaRequestType)
    (k : String) (p : InertiaProp) (hp : p.isThunk = true) :
    (emit req_type k p).isSome = thunkFires req_type k p := by
  cases p <;> cases req_type <;>
    simp_all [InertiaProp.isThunk, emit, emitStandard, emitPartials,
      thunkFires, resolve_prop_unconditionally, apply_ite]

/-- Claim C4: with distinct keys, one resolution call invokes no thunk more
than once, and a `Lazy`/`Demand` entry's thunk is invoked exactly once when
the entry is included in the result and never when it is dropped. -/
theorem c4_thunk_invocations (raw_props : InertiaProps)
    (req_type : InertiaRequestType) (hd : keysDistinct raw_props) :
    (∀ q, ((resolve_props_tr raw_props req_type).2.count q) ≤ 1) ∧
    (∀ k p, (k, p) ∈ raw_props → p.isThunk = true →
      (resolve_props_tr raw_props req_type).2.count k =
        if (mapGet (resolve_props raw_props req_type) k).isSome then 1
        else 0) := by
  rw [resolve_props_tr_eq]
  refine ⟨fun q => count_traceOf_le_one req_type raw_props q hd, ?_⟩
  intro k p hmem hp
  rw [count_traceOf req_type raw_props k p hmem hd,
    mapGet_resolve_props raw_props req_type k p hmem hd,
    emit_isSome_eq_thunkFires req_type k p hp]

/-- Witness for C4 at a concrete table and partial filter: the selected
lazy thunk fires once, the unselected demand thunk never fires. -/
theorem c4_thunk_invocations_witness :
    (resolve_props_tr
      [("a", .Lazy fun _ => .num 1), ("b", .Demand fun _ => .num 2)]
      (.Partial ⟨"X", ["a"], []⟩)).2.count "a" = 1 ∧
    (resolve_props_tr
      [("a", .Lazy fun _ => .num 1), ("b", .Demand fun _ => .num 2)]
      (.Partial ⟨"X", ["a"], []⟩)).2.count "b" = 0 := by
  have hd : keysDistinct
      ([("a", .Lazy fun _ => .num 1), ("b", .Demand fun _ => .num 2)] :
        InertiaProps) := by
    rw [keysDistinct]
    refine List.Pairwise.cons (fun e he => ?_) ?_
    · rcases List.mem_cons.mp he with h | h
      · rw [h]; decide
      · cases h
    · exact List.pairwise_singleton _ _
  constructor
  · have h := (c4_thunk_invocations _ (.Partial ⟨"X", ["a"], []⟩) hd).2 "a"
      (.Lazy fun _ => .num 1) (List.mem_cons_self _ _) rfl
    simpa [resolve_props, resolve_props_partials, should_be_pushed,
      mapInsert, mapGet] using h
  · have h := (c4_thunk_invocations _ (.Partial ⟨"X", ["a"], []⟩) hd).2 "b"
      (.Demand fun _ => .num 2)
      (List.mem_cons_of_mem _ (List.mem_cons_self _ _)) rfl
    simpa [resolve_props, resolve_props_partials, should_be_pushed,
      mapInsert, mapGet] using h

/-- Claim C10: when route props and shared (middleware) props are merged by
`render_with_props`, the shared resolved value overwrites the route one on
key collision, and keys present in only one of the two maps are kept. -/
theorem c10_shared_overwrites_route (version url component : String)
    (props shared_props : InertiaProps) (req_type : InertiaRequestType)
    (k : String) :
    mapGet
      (build_page version url component props (some shared_props)
        req_type).1.props k =
      match mapGet (resolve_props shared_props req_type) k with
      | some v => some v
      | none => mapGet (resolve_props props req_type) k := by
  simp only [build_page, resolve_props_tr_eq]
  exact mapGet_mapExtend _ _ k (keysDistinct_resolve_props shared_props req_type)

/-- Claim C2: version negotiation yields exactly four outcomes.  An absent
client version header, or one equal to the current version, lets rendering
proceed (neither the middleware gate nor the handler check intercepts); a
present different version on a hydrated request (x-inertia marker) yields a
409 conflict carrying x-inertia-location equal to the request url; a
present different version on a non-hydrated request yields a 302 redirect,
not a conflict (this branch is taken by the middleware gate; the handler
check passes non-hydrated requests through). -/
theorem c2_version_negotiation (current v : String) (bytes : List Nat)
    (req : Request) :
    (req.xInertiaVersion = none →
      middleware_version_gate current req = none ∧
      check_and_handle_version_mismatch current req = none) ∧
    (req.xInertiaVersion = some bytes → headerToStr bytes = some current →
      middleware_version_gate current req = none ∧
      check_and_handle_version_mismatch current req = none) ∧
    (req.xInertiaVersion = some bytes → headerToStr bytes = some v →
      v ≠ current → is_inertia_request req = true →
      middleware_version_gate current req =
        some ⟨409, [("x-inertia-location", req.uri)], .empty⟩ ∧
      check_and_handle_version_mismatch current req =
        some ⟨409, [("x-inertia-location", req.uri)], .empty⟩) ∧
    (req.xInertiaVersion = some bytes → headerToStr bytes = some v →
      v ≠ current → is_inertia_request req = false →
      middleware_version_gate current req =
        some ⟨302, [("location", req.uri)], .empty⟩ ∧
      (302 : Nat) ≠ 409) := by
  refine ⟨?_, ?_, ?_, ?_⟩
  · intro habs
    have hchk : check_inertia_version req current = true := by
      simp [check_inertia_version, habs]
    simp [middleware_version_gate, check_and_handle_version_mismatch, hchk]
  · intro hsome hdec
    have hchk : check_inertia_version req current = true := by
      simp [check_inertia_version, hsome, hdec]
    simp [middleware_version_gate, check_and_handle_version_mismatch, hchk]
  · intro hsome hdec hne hhyd
    have hchk : check_inertia_version req current = false := by
      simp [check_inertia_version, hsome, hdec, hne]
    constructor
    · simp [middleware_version_gate, hchk, location, hhyd]
    · simp [check_and_handle_version_mismatch, hchk, hhyd, location]
  · intro hsome hdec hne hfull
    have hchk : check_inertia_version req current = false := by
      simp [check_inertia_version, hsome, hdec, hne]
    constructor
    · simp [middleware_version_gate, hchk, location, hfull]
    · decide

/-- Witness for C2: a hydrated request with a stale version gets the 409
conflict, a non-hydrated one the 302 redirect. -/
theorem c2_version_negotiation_witness :
    middleware_version_gate "v2"
      ⟨some [116], some [118, 49], none, none, none, "/u"⟩ =
      some ⟨409, [("x-inertia-location", "/u")], .empty⟩ ∧
    middleware_version_gate "v2"
      ⟨none, some [118, 49], none, none, none, "/u"⟩ =
      some ⟨302, [("location", "/u")], .empty⟩ ∧
    check_and_handle_version_mismatch "v2"
      ⟨none, none, none, none, none, "/u"⟩ = none := by
  refine ⟨?_, ?_, ?_⟩
  · exact ((c2_version_negotiation "v2" "v1" [118, 49]
      ⟨some [116], some [118, 49], none, none, none, "/u"⟩).2.2.1 rfl
      (by decide) (by decide) rfl).1
  · exact ((c2_version_negotiation "v2" "v1" [118, 49]
      ⟨none, some [118, 49], none, none, none, "/u"⟩).2.2.2 rfl
      (by decide) (by decide) rfl).1
  · exact ((c2_version_negotiation "v2" "v1" [118, 49]
      ⟨none, none, none, none, none, "/u"⟩).1 rfl).2

/-- Decidable equality for `Except` results, used to evaluate the
classifier at concrete requests. -/
instance exceptDecEq {e a : Type} [DecidableEq e] [DecidableEq a] :
    DecidableEq (Except e a) := fun x y =>
  match x, y with
  | .ok u, .ok w =>
    if h : u = w then isTrue (by rw [h])
    else isFalse (by intro he; cases he; exact h rfl)
  | .error u, .error w =>
    if h : u = w then isTrue (by rw [h])
    else isFalse (by intro he; cases he; exact h rfl)
  | .ok _, .error _ => isFalse (by intro he; cases he)
  | .error _, .ok _ => isFalse (by intro he; cases he)

/-- Claim C5 counterexample: the code splits partial-data on commas
verbatim - elements are neither trimmed nor dropped when empty, so the
header value "a ,b," classifies to ["a ", "b", ""], not the ["a", "b"]
that trimming and dropping empty strings would give. -/
theorem c5_counterexample :
    get_request_type
      ⟨none, none, some [67], some [97, 32, 44, 98, 44], none, "/u"⟩ =
      .ok (.Partial ⟨"C", ["a ", "b", ""], []⟩) ∧
    (["a ", "b", ""] : List String) ≠ ["a", "b"] := by
  constructor
  · decide
  · decide

/-- Claim C5 (amended): classification returns Standard exactly when the
partial-component header is absent; when it is present and decodes, the
`only` and `except` lists are the comma-split of the decoded partial-data
and partial-except header values taken verbatim (no trimming, empty
segments kept), an absent header yielding the empty list. -/
theorem c5_amended_classification (req : Request) :
    (get_request_type req = .ok .Standard ↔
      req.xInertiaPartialComponent = none) ∧
    (∀ bytes comp, req.xInertiaPartialComponent = some bytes →
      headerToStr bytes = some comp →
      ∀ onlyList exList,
      (match req.xInertiaPartialData with
        | none => onlyList = []
        | some bs => ∃ s, headerToStr bs = some s ∧ onlyList = splitCommas s) →
      (match req.xInertiaPartialExcept with
        | none => exList = []
        | some bs => ∃ s, headerToStr bs = some s ∧ exList = splitCommas s) →
      get_request_type req = .ok (.Partial ⟨comp, onlyList, exList⟩)) := by
  constructor
  · constructor
    · intro h
      cases hcomp : req.xInertiaPartialComponent with
      | none => rfl
      | some bytes =>
        simp only [get_request_type, hcomp] at h
        cases hdec : headerToStr bytes with
        | none => simp only [hdec] at h; cases h
        | some comp =>
          simp only [hdec] at h
          cases hdata : extract_partials_headers_content
              req.xInertiaPartialData "x-inertia-partial-data" with
          | error e => simp only [hdata] at h; cases h
          | ok only =>
            simp only [hdata] at h
            cases hex : extract_partials_headers_content
                req.xInertiaPartialExcept "x-inertia-partial-except" with
            | error e => simp only [hex] at h; cases h
            | ok exList => simp only [hex] at h; cases h
    · intro h
      rw [get_request_type, h]
  · intro bytes comp hcomp hdec onlyList exList h1 h2
    have hex1 : extract_partials_headers_content req.xInertiaPartialData
        "x-inertia-partial-data" = .ok onlyList := by
      cases hdata : req.xInertiaPartialData with
      | none =>
        rw [hdata] at h1
        rw [extract_partials_headers_content, h1]
      | some bs =>
        rw [hdata] at h1
        obtain ⟨s, hs, hsplit⟩ := h1
        rw [extract_partials_headers_content, hs, hsplit]
    have hex2 : extract_partials_headers_content req.xInertiaPartialExcept
        "x-inertia-partial-except" = .ok exList := by
      cases hdata : req.xInertiaPartialExcept with
      | none =>
        rw [hdata] at h2
        rw [extract_partials_headers_content, h2]
      | some bs =>
        rw [hdata] at h2
        obtain ⟨s, hs, hsplit⟩ := h2
        rw [extract_partials_headers_content, hs, hsplit]
    simp only [get_request_type, hcomp, hdec, hex1, hex2]

/-- Witness for the amended C5 at a concrete request carrying partial
headers. -/
theorem c5_amended_classification_witness :
    get_request_type ⟨none, none, some [67], some [97, 44, 98], none, "/u"⟩ =
      .ok (.Partial ⟨"C", ["a", "b"], []⟩) := by
  exact (c5_amended_classification
      ⟨none, none, some [67], some [97, 44, 98], none, "/u"⟩).2 [67] "C" rfl
    (by decide) ["a", "b"] [] ⟨"a,b", by decide, by decide⟩ rfl

/-- Whether an error is the `HeaderError` variant. -/
def InertiaError.isHeaderVariant : InertiaError → Bool
  | .HeaderError _ => true
  | _ => false

/-- Whether an optional raw header value decodes as text (absent counts as
decodable). -/
def headerDecodes : Option (List Nat) → Bool
  | none => true
  | some bytes => (headerToStr bytes).isSome

/-- Whether an `Except` result is a success. -/
def exceptIsOk {e a : Type} : Except e a → Bool
  | .ok _ => true
  | .error _ => false

/-- Claim C6 counterexample: an undecodable partial-component header makes
classification fail with `SerializationError`, which is not the
`HeaderError` variant the claim requires for every partial-reload
header. -/
theorem c6_counterexample :
    get_request_type ⟨none, none, some [200], none, none, "/u"⟩ =
      .error (.SerializationError
        "Failed to serialize header x-inertia-partial-component") ∧
    InertiaError.isHeaderVariant (.SerializationError
      "Failed to serialize header x-inertia-partial-component") = false := by
  constructor
  · decide
  · decide

/-- Claim C6 (amended): an undecodable partial-component header yields
`SerializationError`; an undecodable partial-data header (with decodable
component) and an undecodable partial-except header (with decodable
component and data) yield `HeaderError`; and whenever every present
partial header decodes as text, classification succeeds. -/
theorem c6_amended_error_variants (req : Request) (bytes : List Nat) :
    (req.xInertiaPartialComponent = some bytes → headerToStr bytes = none →
      get_request_type req = .error (.SerializationError
        "Failed to serialize header x-inertia-partial-component")) ∧
    (∀ comp, req.xInertiaPartialComponent = some bytes →
      headerToStr bytes = some comp →
      headerDecodes req.xInertiaPartialData = false →
      get_request_type req = .error (.HeaderError
        "Header x-inertia-partial-data's value must contain only printable ASCII characters.")) ∧
    (∀ comp, req.xInertiaPartialComponent = some bytes →
      headerToStr bytes = some comp →
      headerDecodes req.xInertiaPartialData = true →
      headerDecodes req.xInertiaPartialExcept = false →
      get_request_type req = .error (.HeaderError
        "Header x-inertia-partial-except's value must contain only printable ASCII characters.")) ∧
    (headerDecodes req.xInertiaPartialComponent = true →
      headerDecodes req.xInertiaPartialData = true →
      headerDecodes req.xInertiaPartialExcept = true →
      exceptIsOk (get_request_type req) = true) := by
  refine ⟨?_, ?_, ?_, ?_⟩
  · intro hcomp hdec
    simp only [get_request_type, hcomp, hdec]
  · intro comp hcomp hdec hdata
    cases hd : req.xInertiaPartialData with
    | none => rw [hd] at hdata; simp [headerDecodes] at hdata
    | some bs =>
      rw [hd] at hdata
      have hnone : headerToStr bs = none := by
        simpa [headerDecodes, Option.isSome_iff_exists] using hdata
      simp only [get_request_type, hcomp, hdec, hd]
      simp [extract_partials_headers_content, hnone]
  · intro comp hcomp hdec hdata hex
    have hex1 : ∃ l, extract_partials_headers_content req.xInertiaPartialData
        "x-inertia-partial-data" = .ok l := by
      cases hd : req.xInertiaPartialData with
      | none => exact ⟨[], rfl⟩
      | some bs =>
        rw [hd] at hdata
        obtain ⟨s, hs⟩ := Option.isSome_iff_exists.mp hdata
        exact ⟨splitCommas s, by
          simp only [extract_partials_headers_content, hs]⟩
    obtain ⟨l, hl⟩ := hex1
    cases he : req.xInertiaPartialExcept with
    | none => rw [he] at hex; simp [headerDecodes] at hex
    | some bs =>
      rw [he] at hex
      have hnone : headerToStr bs = none := by
        simpa [headerDecodes, Option.isSome_iff_exists] using hex
      simp only [get_request_type, hcomp, hdec, hl, he]
      simp [extract_partials_headers_content, hnone]
  · intro hcomp hdata hex
    cases hc : req.xInertiaPartialComponent with
    | none => simp only [get_request_type, hc, exceptIsOk]
    | some bs =>
      rw [hc] at hcomp
      obtain ⟨comp, hcdec⟩ := Option.isSome_iff_exists.mp hcomp
      have hex1 : ∃ l, extract_partials_headers_content req.xInertiaPartialData
          "x-inertia-partial-data" = .ok l := by
        cases hd : req.xInertiaPartialData with
        | none => exact ⟨[], rfl⟩
        | some bs2 =>
          rw [hd] at hdata
          obtain ⟨s, hs⟩ := Option.isSome_iff_exists.mp hdata
          exact ⟨splitCommas s, by
            simp only [extract_partials_headers_content, hs]⟩
      have hex2 : ∃ l,
          extract_partials_headers_content req.xInertiaPartialExcept
            "x-inertia-partial-except" = .ok l := by
        cases hd : req.xInertiaPartialExcept with
        | none => exact ⟨[], rfl⟩
        | some bs2 =>
          rw [hd] at hex
          obtain ⟨s, hs⟩ := Option.isSome_iff_exists.mp hex
          exact ⟨splitCommas s, by
            simp only [extract_partials_headers_content, hs]⟩
      obtain ⟨l1, hl1⟩ := hex1
      obtain ⟨l2, hl2⟩ := hex2
      simp only [get_request_type, hc, hcdec, hl1, hl2, exceptIsOk]

/-- Witness for the amended C6: an undecodable partial-data header (with a
decodable component) yields the `HeaderError` variant, and a fully
decodable request classifies successfully. -/
theorem c6_amended_error_variants_witness :
    get_request_type ⟨none, none, some [67], some [200], none, "/u"⟩ =
      .error (.HeaderError
        "Header x-inertia-partial-data's value must contain only printable ASCII characters.") ∧
    exceptIsOk (get_request_type
      ⟨none, none, some [67], some [97], none, "/u"⟩) = true := by
  constructor
  · exact (c6_amended_error_variants
      ⟨none, none, some [67], some [200], none, "/u"⟩ [67]).2.1 "C" rfl
      (by decide) (by decide)
  · exact (c6_amended_error_variants
      ⟨none, none, some [67], some [97], none, "/u"⟩ [67]).2.2.2
      (by decide) (by decide) (by decide)

/-- Claim C8: whenever the version check signals a forced refresh,
`render_with_props` returns that conflict-or-redirect response (which is
`location` at the request url) immediately: no thunk is invoked, no page is
built and no rendering happens - the effect log is empty. -/
theorem c8_forced_refresh_bypasses_resolution (version : String)
    (template_resolver : ViewData → Except InertiaError String)
    (ssr_enabled : Bool) (ssr_outcome : SsrOutcome) (req : Request)
    (component : String) (props : InertiaProps)
    (shared : Option InertiaProps) (req_type : InertiaRequestType)
    (hreq : get_request_type req = .ok req_type) (resp : Response)
    (hver : check_and_handle_version_mismatch version req = some resp) :
    render_with_props version template_resolver ssr_enabled ssr_outcome req
      component props shared = .ok (resp, ⟨[], none, false⟩) ∧
    resp = location req req.uri := by
  constructor
  · simp only [render_with_props, hreq, hver]
  · rw [check_and_handle_version_mismatch] at hver
    split at hver
    · exact (Option.some_inj.mp hver).symm
    · cases hver

/-- Witness for C8: a hydrated request with a stale version makes the
render return the 409 conflict with an empty effect log, the route prop
untouched. -/
theorem c8_forced_refresh_bypasses_resolution_witness :
    render_with_props "v2" (fun _ => .ok "html") false (.success ⟨[], ""⟩)
      ⟨some [116], some [118, 49], none, none, none, "/u"⟩ "C"
      [("a", .Data (.num 1))] none =
      .ok (⟨409, [("x-inertia-location", "/u")], .empty⟩, ⟨[], none, false⟩) := by
  exact (c8_forced_refresh_bypasses_resolution "v2" (fun _ => .ok "html")
    false (.success ⟨[], ""⟩)
    ⟨some [116], some [118, 49], none, none, none, "/u"⟩ "C"
    [("a", .Data (.num 1))] none .Standard rfl
    ⟨409, [("x-inertia-location", "/u")], .empty⟩ (by decide)).1

/-- Claim C7: when the SSR round-trip fails in any way (send failure,
timeout, undeserializable body), the failure only sets the warning flag:
the template resolver is called with no pre-rendered markup (ssr page
`none`), a successful template resolution still completes the request with
a 200 html response, and only a template-resolution failure is returned to
the caller, unmasked. -/
theorem c7_ssr_failure_nonfatal (version : String)
    (template_resolver : ViewData → Except InertiaError String)
    (ssr_outcome : SsrOutcome) (req : Request) (component : String)
    (props : InertiaProps) (shared : Option InertiaProps)
    (req_type : InertiaRequestType)
    (hreq : get_request_type req = .ok req_type)
    (hver : check_and_handle_version_mismatch version req = none)
    (hfull : is_inertia_request req = false)
    (hfail : ssr_outcome.isFailure = true) :
    render_with_props version template_resolver true ssr_outcome req
      component props shared =
      match template_resolver
          ⟨(build_page version req.uri component props shared req_type).1,
            none⟩ with
      | .error e => .error e
      | .ok html =>
        .ok (⟨200, [("x-inertia", "true"), ("content-type", "text/html")],
            .html html⟩,
          ⟨(build_page version req.uri component props shared req_type).2,
            some (build_page version req.uri component props shared
              req_type).1,
            true⟩) := by
  cases ssr_outcome with
  | success p => simp [SsrOutcome.isFailure] at hfail
  | sendFailure msg =>
    cases htr : template_resolver
        ⟨(build_page version req.uri component props shared req_type).1,
          none⟩ with
    | error e =>
      simp [render_with_props, hreq, hver, hfull, request_page_render, htr]
    | ok html =>
      simp [render_with_props, hreq, hver, hfull, request_page_render, htr]
  | badBody msg =>
    cases htr : template_resolver
        ⟨(build_page version req.uri component props shared req_type).1,
          none⟩ with
    | error e =>
      simp [render_with_props, hreq, hver, hfull, request_page_render, htr]
    | ok html =>
      simp [render_with_props, hreq, hver, hfull, request_page_render, htr]

/-- Witness for C7: a send failure leaves the request completing with a 200
html response built from a page without pre-rendered markup, warning
logged. -/
theorem c7_ssr_failure_nonfatal_witness :
    render_with_props "v" (fun _ => .ok "html") true (.sendFailure "boom")
      ⟨none, none, none, none, none, "/u"⟩ "C" [] none =
      .ok (⟨200, [("x-inertia", "true"), ("content-type", "text/html")],
          .html "html"⟩,
        ⟨[], some ⟨"C", [], "/u", some "v"⟩, true⟩) := by
  have h := c7_ssr_failure_nonfatal "v" (fun _ => .ok "html")
    (.sendFailure "boom") ⟨none, none, none, none, none, "/u"⟩ "C" [] none
    .Standard rfl rfl rfl rfl
  simpa [build_page, resolve_props_tr] using h

/-- Claim C9: starting the renderer process fails when the script path does
not exist, when the path is not representable as text, or when spawning
fails; in the first two cases no spawn is attempted, and on success the
returned handle is bound to the given server address. -/
theorem c9_node_process_start (server_path server_url : String)
    (w : StartWorld) :
    (w.pathExists = false →
      nodeJsStart server_path server_url w =
        (.error ⟨"Invalid path",
          "Server javascript file not found in " ++ server_path ++ "."⟩,
          false)) ∧
    (w.pathExists = true → w.pathToStr = none →
      nodeJsStart server_path server_url w =
        (.error ⟨"Invalid path",
          "The given path contains invalid UTF-8 characters."⟩, false)) ∧
    (∀ s err, w.pathExists = true → w.pathToStr = some s →
      w.spawnResult = .error err →
      nodeJsStart server_path server_url w =
        (.error ⟨"Process error",
          "Something went wrong on invoking a node server: " ++ err⟩, true)) ∧
    (∀ s child, w.pathExists = true → w.pathToStr = some s →
      w.spawnResult = .ok child →
      nodeJsStart server_path server_url w = (.ok ⟨child, server_url⟩, true) ∧
      (NodeJsProc.mk child server_url).server = server_url) := by
  refine ⟨?_, ?_, ?_, ?_⟩ <;> intros <;> simp_all [nodeJsStart]

/-- Witness for C9: a successful start returns a handle bound to the given
address; a missing script fails without spawning. -/
theorem c9_node_process_start_witness :
    nodeJsStart "app.js" "http://127.0.0.1:1000"
      ⟨true, some "app.js", .ok 7⟩ =
      (.ok ⟨7, "http://127.0.0.1:1000"⟩, true) ∧
    nodeJsStart "app.js" "http://127.0.0.1:1000"
      ⟨false, some "app.js", .ok 7⟩ =
      (.error ⟨"Invalid path",
        "Server javascript file not found in app.js."⟩, false) := by
  constructor
  · exact ((c9_node_process_start "app.js" "http://127.0.0.1:1000"
      ⟨true, some "app.js", .ok 7⟩).2.2.2 "app.js" 7 rfl rfl rfl).1
  · have h := (c9_node_process_start "app.js" "http://127.0.0.1:1000"
      ⟨false, some "app.js", .ok 7⟩).1 rfl
    simpa using h
